import Mathlib

/-!
Verification development for the interaction-tracking module and the
priority-based unit-of-work scheduler of this repository.

Part A embeds `packages/interaction-tracking/src/InteractionTracking.js`.
That file delegates zone bookkeeping to `InteractionZone.js`, which is not
in the source tree; the zone primitives are therefore modelled from the
spec (sections 3 "Zone Context" and 4.1), and the functions of
`InteractionTracking.js` are translated from the source on top of them.

Part B models the reconciler's work loop, commit coordinator, suspense
controller and error-boundary recovery.  The reconciler source is not in
the tree (only its test suite, `ReactUpdaters-test.internal.js`, is), so
the whole scheduler is modelled from the spec (sections 4.2-4.6, 5).

Zone-holding computations are embedded as explicit state passing: a
computation takes the current zone state and returns a result (normal or
thrown) together with the final zone state.  The build-time `__PROFILE__`
flag is an explicit boolean parameter.  Wall-clock time (`now()`) is an
explicit numeric parameter.
-/

namespace InteractionTracking

/-- An interaction: `{ name: string, timestamp: number }`
(`InteractionTracking.js`, lines 24-27). -/
structure Interaction where
  name : String
  timestamp : Nat
deriving Repr, DecidableEq

/-- `Interactions = Array<Interaction>` (`InteractionTracking.js`, line 22). -/
abbrev Interactions := List Interaction

/-- The zone state: the currently active interaction set, or `null`. -/
abbrev ZoneState := Option Interactions

/-- Outcome of running a JavaScript callback: a normal return value or a
thrown exception (carried as a string message). -/
inductive Result (α : Type) where
  | ok : α → Result α
  | thrown : String → Result α
deriving Repr, DecidableEq

/-- A computation over the zone state: given the currently active zone it
produces a result and the zone state it leaves behind.  Callbacks passed
to `track` / `wrap` are values of this type. -/
abbrev Comp (α : Type) := ZoneState → Result α × ZoneState

/-- Modelled from the spec: `InteractionZone.getCurrentContext` (the file
`InteractionZone.js` is not in the source tree).  Returns the zone state
active for the calling strand. -/
def getCurrentContext : Comp ZoneState :=
  fun s => (Result.ok s, s)

/-- Modelled from the spec: `InteractionZone.trackContext` (file missing
from the source tree).  Saves the previously active zone, activates
`interactions` strictly for the duration of `callback`, and restores the
saved zone on every exit path, normal return or throw, before the result
propagates to the caller. -/
def trackContext (interactions : Interactions) (callback : Comp α) : Comp α :=
  fun s => ((callback (some interactions)).1, s)

/-- Modelled from the spec: `InteractionZone.restoreContext` (file missing
from the source tree).  Activates `interactions` and returns the
previously active set, for the caller to restore later via
`completeContext`; with tracing disabled it performs no zone bookkeeping
and returns `null`. -/
def restoreContext (profile : Bool) (interactions : ZoneState) : Comp ZoneState :=
  fun s => if profile then (Result.ok s, interactions) else (Result.ok none, s)

/-- Modelled from the spec: `InteractionZone.completeContext` (file missing
from the source tree).  Restores the set previously returned by
`restoreContext`; with tracing disabled it performs no zone bookkeeping. -/
def completeContext (profile : Bool) (interactions : ZoneState) : Comp Unit :=
  fun s => if profile then (Result.ok (), interactions) else (Result.ok (), s)

/-- Modelled from the spec: `InteractionZone.wrapForCurrentContext` (file
missing from the source tree).  Given the zone captured at wrap time, the
returned callback activates that zone for the duration of the original
callback and afterwards restores the zone that was active immediately
before this invocation, on every exit path. -/
def wrapForCurrentContext (callback : Comp α) (captured : ZoneState) : Comp α :=
  fun s => ((callback captured).1, s)

/-- `getCurrentEvents` (`InteractionTracking.js`, lines 45-51): `null`
when `__PROFILE__` is false, otherwise the current context. -/
def getCurrentEvents (profile : Bool) : Comp ZoneState :=
  if !profile then fun s => (Result.ok none, s) else getCurrentContext

/-- `startContinuation` (`InteractionTracking.js`, lines 53-57):
delegates to `restoreContext`. -/
def startContinuation (profile : Bool) (interactions : ZoneState) : Comp ZoneState :=
  restoreContext profile interactions

/-- `stopContinuation` (`InteractionTracking.js`, lines 59-61):
delegates to `completeContext`. -/
def stopContinuation (profile : Bool) (interactions : ZoneState) : Comp Unit :=
  completeContext profile interactions

/-- The concatenated (cloned) interaction set built by `track`
(`InteractionTracking.js`, lines 76-81): `[interaction]` when the current
context is `null`, otherwise `interactions.concat(interaction)`. -/
def nextInteractions (current : ZoneState) (interaction : Interaction) : Interactions :=
  match current with
  | none => [interaction]
  | some xs => xs ++ [interaction]

/-- `track` (`InteractionTracking.js`, lines 63-84): when `__PROFILE__` is
false it merely invokes the callback; otherwise it creates an interaction
from `name` and the current time `t`, builds the concatenated set from the
current context, and runs the callback in that zone via `trackContext`. -/
def track (profile : Bool) (name : String) (t : Nat) (callback : Comp α) : Comp α :=
  if !profile then callback
  else fun s =>
    let interaction : Interaction := ⟨name, t⟩
    trackContext (nextInteractions s interaction) callback s

/-- `wrap` (`InteractionTracking.js`, lines 86-92): when `__PROFILE__` is
false it returns the callback unchanged; otherwise it returns the callback
wrapped for the context current at wrap time. -/
def wrap (profile : Bool) (callback : Comp α) : Comp (Comp α) :=
  if !profile then fun s => (Result.ok callback, s)
  else fun s => (Result.ok (wrapForCurrentContext callback s), s)

end InteractionTracking


namespace Sched

/-- Modelled from the spec (section 4.2): the ordered, fixed set of
priority levels, `Immediate > UserBlocking > Normal > Low > Idle`.  The
reconciler source is not in the tree; only its test suite is. -/
inductive Priority where
  | immediate
  | userBlocking
  | normal
  | low
  | idle
deriving Repr, DecidableEq

/-- Numeric rank of a priority level; lower rank means more urgent. -/
def Priority.rank : Priority → Nat
  | .immediate => 0
  | .userBlocking => 1
  | .normal => 2
  | .low => 3
  | .idle => 4

/-- Modelled from the spec (sections 3, 4.2): a priority-tagged update
request on the root.  `unit` is the work unit whose own state change
produced the request; `hidden` marks a request whose commit defers
hidden-subtree (offscreen) work. -/
structure Update where
  unit : Nat
  priority : Priority
  hidden : Bool
deriving Repr, DecidableEq

/-- Modelled from the spec (section 4.3): an in-progress rendering pass:
its priority, the update requests it consumed at pass start, and the
number of work-loop steps left before completion. -/
structure Pass where
  priority : Priority
  updates : List Update
  remaining : Nat
deriving Repr, DecidableEq

/-- The work units of the updates consumed by a pass. -/
def Pass.units (p : Pass) : List Nat :=
  p.updates.map Update.unit

/-- Modelled from the spec (section 4.4): a registered resumption callback
for a suspended work unit: the awaited resource, the suspended unit and
the unit's original priority. -/
structure Wait where
  resource : Nat
  unit : Nat
  priority : Priority
deriving Repr, DecidableEq

/-- Observable commit-phase events, tagged with the commit's index in the
commit log: layout-phase effects, the `onCommitRoot` instrumentation
notification, the scheduling of that commit's passive effects, and the
later execution of those passive effects. -/
inductive Event where
  | layout (k : Nat)
  | commitRoot (k : Nat)
  | passiveScheduled (k : Nat)
  | passiveRun (k : Nat)
deriving Repr, DecidableEq

/-- The commit index an event belongs to. -/
def Event.idx : Event → Nat
  | .layout k => k
  | .commitRoot k => k
  | .passiveScheduled k => k
  | .passiveRun k => k

/-- Modelled from the spec (sections 3, 4.3-4.6): the per-root scheduler
state.  `pending` is the queue of priority-tagged requests, `rendering`
the in-progress pass, `waits` the registered suspense resumptions,
`passiveQueue` the commits whose passive effects are scheduled but not yet
run, `offscreen` whether deferred hidden-subtree work is pending, `log`
the Updater Records of the commits in commit order, `events` the observable
commit-phase event trace, `hookCalls` the error-boundary hook invocations,
and `discarded` the number of discarded failed subtree renders. -/
structure SchedState where
  pending : List Update
  rendering : Option Pass
  waits : List Wait
  passiveQueue : List Nat
  offscreen : Bool
  log : List (List Nat)
  events : List Event
  hookCalls : List (Nat × String)
  discarded : Nat
deriving Repr, DecidableEq

/-- The initial, idle scheduler state. -/
def SchedState.init : SchedState :=
  ⟨[], none, [], [], false, [], [], [], 0⟩

/-- Scheduler configuration: how many work-loop steps a pass takes after
it starts (the size of the root's work-unit tree, abstractly). -/
structure Config where
  passLength : Nat
deriving Repr, DecidableEq

/-- Modelled from the spec (section 4.6 Commit Coordinator): commit a
completed pass.  Appends the Updater Record (the distinct work units whose
own state change triggered the commit) to the commit log; emits the
layout-phase effects, then the single `onCommitRoot` notification, then
schedules the passive-phase effects as a deferred task; a commit that
rendered hidden content leaves deferred offscreen work behind. -/
def commitPass (updaters : List Nat) (hidden : Bool) (s : SchedState) : SchedState :=
  let k := s.log.length
  { s with
    log := s.log ++ [updaters]
    events := s.events ++ updaters.map (fun _ => Event.layout k)
      ++ [Event.commitRoot k, Event.passiveScheduled k]
    passiveQueue := s.passiveQueue ++ [k]
    offscreen := s.offscreen || hidden }

/-- The most urgent rank present in a list of pending updates (5 when the
list is empty; every real rank is at most 4). -/
def bestRank (l : List Update) : Nat :=
  l.foldr (fun u r => min u.priority.rank r) 5

/-- Modelled from the spec (sections 4.3-4.5, 5): the scheduling events
the machine reacts to.  `submit` enqueues a priority-tagged request;
`work` is one cooperative work-loop step; `flushSync` submits an
Immediate-priority request, which bypasses the cooperative yield check and
runs to completion synchronously; `flushPassive` runs the oldest scheduled
passive-phase effects; `flushOffscreen` performs a deferred
hidden-subtree follow-up pass; `workSuspend` is the in-progress pass
signalling that `unit` depends on unready `resource` (the pass commits
fallback content); `resolve` is the resource's completion signal;
`workThrow` is the in-progress pass throwing, caught by the nearest
ancestor error boundary `boundary`. -/
inductive Action where
  | submit (u : Update)
  | work
  | flushSync (unit : Nat)
  | flushPassive
  | flushOffscreen
  | workSuspend (unit : Nat) (resource : Nat)
  | resolve (resource : Nat)
  | workThrow (boundary : Nat) (err : String)
deriving Repr, DecidableEq

/-- Modelled from the spec (sections 4.3-4.6, 5): one transition of the
per-root scheduler.

* `submit`: a strictly higher-priority request discards the in-progress
  pass (its consumed requests are returned to the queue, to be restarted
  from scratch); the request is enqueued.
* `work`: with a pass in progress, performs one unit of work, committing
  when the pass's work is exhausted; otherwise starts a pass that consumes
  the pending requests of the most urgent rank (FIFO batch).
* `flushSync`: discards the in-progress pass (returning its requests to
  the queue), then synchronously completes and commits a pass for the
  Immediate request together with any pending Immediate requests.
* `flushPassive`: runs the passive effects of the oldest commit that has
  them scheduled.
* `flushOffscreen`: when idle with deferred offscreen work, performs the
  hidden-subtree follow-up pass, which consumes no update request and so
  commits an empty Updater Record.
* `workSuspend`: the pass commits fallback content and registers a
  resumption for the suspended unit at the pass's priority.
* `resolve`: re-enqueues, for every matching registered resumption, a
  fresh request at the unit's original priority, and removes those
  resumptions (a second resolution finds none).
* `workThrow`: the failed subtree render is discarded, the boundary's
  error-handling hook is invoked with the captured failure, the pass
  commits its recovery output, and a recovery request whose sole updater
  is the boundary itself is enqueued. -/
def applyAction (cfg : Config) (a : Action) (s : SchedState) : SchedState :=
  match a with
  | .submit u =>
    match s.rendering with
    | some p =>
      if u.priority.rank < p.priority.rank then
        { s with rendering := none, pending := p.updates ++ s.pending ++ [u] }
      else
        { s with pending := s.pending ++ [u] }
    | none => { s with pending := s.pending ++ [u] }
  | .work =>
    match s.rendering with
    | some p =>
      if p.remaining ≤ 1 then
        commitPass p.units.dedup (p.updates.any Update.hidden)
          { s with rendering := none }
      else
        { s with rendering := some { p with remaining := p.remaining - 1 } }
    | none =>
      match s.pending with
      | [] => s
      | u0 :: _ =>
        let r := bestRank s.pending
        let batch := s.pending.filter (fun u => u.priority.rank == r)
        let rest := s.pending.filter (fun u => u.priority.rank != r)
        { s with pending := rest,
                 rendering := some ⟨(batch.headD u0).priority, batch, cfg.passLength⟩ }
  | .flushSync unit =>
    let restored :=
      match s.rendering with
      | some p => p.updates ++ s.pending
      | none => s.pending
    let imm := restored.filter (fun v => v.priority.rank == 0)
    let rest := restored.filter (fun v => v.priority.rank != 0)
    commitPass (unit :: imm.map Update.unit).dedup (imm.any Update.hidden)
      { s with rendering := none, pending := rest }
  | .flushPassive =>
    match s.passiveQueue with
    | [] => s
    | k :: qs =>
      { s with passiveQueue := qs, events := s.events ++ [Event.passiveRun k] }
  | .flushOffscreen =>
    if s.offscreen && s.rendering.isNone then
      commitPass [] false { s with offscreen := false }
    else s
  | .workSuspend unit resource =>
    match s.rendering with
    | some p =>
      commitPass p.units.dedup (p.updates.any Update.hidden)
        { s with rendering := none,
                 waits := s.waits ++ [⟨resource, unit, p.priority⟩] }
    | none => s
  | .resolve resource =>
    { s with
      pending := s.pending ++
        (s.waits.filter (fun w => w.resource == resource)).map
          (fun w => ⟨w.unit, w.priority, false⟩)
      waits := s.waits.filter (fun w => w.resource != resource) }
  | .workThrow boundary err =>
    match s.rendering with
    | some p =>
      commitPass p.units.dedup (p.updates.any Update.hidden)
        { s with rendering := none,
                 pending := s.pending ++ [⟨boundary, p.priority, false⟩],
                 hookCalls := s.hookCalls ++ [(boundary, err)],
                 discarded := s.discarded + 1 }
    | none => s

/-- Run the scheduler from the idle state over a sequence of actions. -/
def run (cfg : Config) (acts : List Action) : SchedState :=
  acts.foldl (fun s a => applyAction cfg a s) SchedState.init

end Sched

namespace Sched

/-- The work units carried by the scheduler state: the units of the
pending requests, of the in-progress pass's consumed requests, and of the
committed Updater Records. -/
def SchedState.liveUnits (s : SchedState) : List Nat :=
  s.pending.map Update.unit ++
    (match s.rendering with
     | some p => p.units
     | none => []) ++ s.log.flatten

/-- Actions of a plain interleaved-updates run: update submission and
ordinary work-loop, synchronous, passive-effect and offscreen processing;
no suspense signal, no resource resolution, no thrown render. -/
def Action.isPlain : Action → Bool
  | .submit _ => true
  | .work => true
  | .flushSync _ => true
  | .flushPassive => true
  | .flushOffscreen => true
  | _ => false

/-- The work unit whose own state change an action submits, if any. -/
def Action.submitted : Action → List Nat
  | .submit u => [u.unit]
  | .flushSync unit => [unit]
  | _ => []

/-- All work units whose own state change was submitted over a run. -/
def submittedUnits (acts : List Action) : List Nat :=
  (acts.map Action.submitted).flatten

/-- The scheduler is quiescent: no pending request and no in-progress
pass. -/
def quiescent (s : SchedState) : Prop :=
  s.pending = [] ∧ s.rendering = none

/-- The commit-phase events belonging to commit `k`. -/
def evAt (k : Nat) (es : List Event) : List Event :=
  es.filter (fun e => e.idx == k)

/-- Every event in the list is a passive-phase event of commit `k`. -/
def passiveOnly (k : Nat) (l : List Event) : Prop :=
  ∀ e ∈ l, e = Event.passiveScheduled k ∨ e = Event.passiveRun k

/-- The event trace of commit `k` is well shaped: first the layout-phase
effects, then the single `onCommitRoot` notification, then only
passive-phase events. -/
def commitShape (k : Nat) (es : List Event) : Prop :=
  ∃ m rest,
    evAt k es = List.replicate m (Event.layout k) ++ Event.commitRoot k :: rest
      ∧ passiveOnly k rest

/-- Well-formedness of the observable event trace: every event belongs to
a committed pass, every scheduled passive effect belongs to a committed
pass, and every committed pass's events are well shaped. -/
def eventsWF (s : SchedState) : Prop :=
  (∀ e ∈ s.events, e.idx < s.log.length) ∧
    (∀ k ∈ s.passiveQueue, k < s.log.length) ∧
    (∀ k, k < s.log.length → commitShape k s.events)

end Sched
namespace InteractionTracking

/-- C6: for every callback (hence for every nesting of `track` calls) and
every exit path, the zone state after `track` returns equals the state
active before it was called, and a thrown exception propagates to the
caller with that prior zone already restored. -/
theorem track_zone_symmetry (α : Type) (callback : Comp α) (name : String)
    (t : Nat) (s : ZoneState) :
    (track true name t callback s).2 = s ∧
    (∀ e : String,
      (callback (some (nextInteractions s ⟨name, t⟩))).1 = Result.thrown e →
      track true name t callback s = (Result.thrown e, s)) := by
  refine ⟨rfl, fun e he => ?_⟩
  simp [track, trackContext, he]

/-- C7: a callback wrapped while zone `Z` is active yields, at wrap time,
the wrapped function and leaves `Z` active; invoking the wrapped function
under any ambient zone `s` runs the callback with the captured zone `Z`
as the current interactions and restores exactly `s` afterwards. -/
theorem wrap_fidelity (α : Type) (callback : Comp α) (Z s : ZoneState) :
    wrap true callback Z = (Result.ok (wrapForCurrentContext callback Z), Z) ∧
    wrapForCurrentContext callback Z s = ((callback Z).1, s) := by
  exact ⟨rfl, rfl⟩

/-- C8: with profiling on, `track name t callback` runs the callback with
the new active set equal to the previous set with `⟨name, t⟩` appended at
the end (or the singleton set when the previous state was `null`),
restores the previous state afterwards, and the previous set value is
unchanged (copy-on-append). -/
theorem track_copy_on_append (α : Type) (callback : Comp α) (name : String)
    (t : Nat) (s : ZoneState) :
    track true name t callback s =
      ((callback (some (nextInteractions s ⟨name, t⟩))).1, s) ∧
    (∀ xs : Interactions, ∀ i : Interaction,
      nextInteractions (some xs) i = xs ++ [i]) ∧
    (∀ i : Interaction, nextInteractions none i = [i]) := by
  exact ⟨rfl, fun xs i => rfl, fun i => rfl⟩

/-- C9: with profiling off, `getCurrentEvents` always returns `null`,
`track` merely invokes its callback (no interaction allocation, no zone
push), `wrap` returns its argument unchanged, and `startContinuation` /
`stopContinuation` perform no zone bookkeeping. -/
theorem disabled_mode_noop (α : Type) (callback : Comp α) (name : String)
    (t : Nat) (s : ZoneState) (set : ZoneState) :
    getCurrentEvents false s = (Result.ok none, s) ∧
    track false name t callback = callback ∧
    wrap false callback s = (Result.ok callback, s) ∧
    startContinuation false set s = (Result.ok none, s) ∧
    stopContinuation false set s = (Result.ok (), s) := by
  refine ⟨rfl, rfl, rfl, ?_, ?_⟩ <;>
    simp [startContinuation, stopContinuation, restoreContext, completeContext]

end InteractionTracking

namespace Sched

lemma rank_ne_zero (p : Priority) (h : p ≠ Priority.immediate) : p.rank ≠ 0 := by
  cases p <;> simp_all [Priority.rank]

lemma mem_split_by_rank (l : List Update) (r : Nat) (v : Update) :
    v ∈ l ↔
      v ∈ l.filter (fun u => u.priority.rank == r) ∨
        v ∈ l.filter (fun u => u.priority.rank != r) := by
  constructor
  · intro hv
    by_cases h : v.priority.rank = r
    · exact Or.inl (List.mem_filter.mpr ⟨hv, by simp [h]⟩)
    · exact Or.inr (List.mem_filter.mpr ⟨hv, by simp [h]⟩)
  · rintro (hv | hv) <;> exact List.mem_of_mem_filter hv

lemma mem_map_unit_split (l : List Update) (r : Nat) (u : Nat) :
    u ∈ l.map Update.unit ↔
      u ∈ (l.filter (fun x => x.priority.rank == r)).map Update.unit ∨
        u ∈ (l.filter (fun x => x.priority.rank != r)).map Update.unit := by
  simp only [List.mem_map]
  constructor
  · rintro ⟨a, ha, rfl⟩
    rcases (mem_split_by_rank l r a).mp ha with h | h
    · exact Or.inl ⟨a, h, rfl⟩
    · exact Or.inr ⟨a, h, rfl⟩
  · rintro (⟨a, ha, rfl⟩ | ⟨a, ha, rfl⟩) <;>
      exact ⟨a, List.mem_of_mem_filter ha, rfl⟩

lemma liveUnits_applyAction (cfg : Config) (a : Action) (s : SchedState)
    (ha : a.isPlain = true) (u : Nat) :
    u ∈ (applyAction cfg a s).liveUnits ↔ u ∈ s.liveUnits ∨ u ∈ a.submitted := by
  cases a with
  | submit v =>
    cases hr : s.rendering with
    | none =>
      simp only [applyAction, hr, SchedState.liveUnits, Action.submitted,
        List.map_append, List.mem_append, List.map_cons, List.map_nil,
        List.mem_singleton, List.not_mem_nil, or_false, false_or, List.append_nil,
        List.nil_append]
      tauto
    | some p =>
      by_cases hc : v.priority.rank < p.priority.rank <;>
        · simp only [applyAction, hr, hc, if_true, if_false, SchedState.liveUnits,
            Action.submitted, Pass.units, List.map_append, List.mem_append,
            List.map_cons, List.map_nil, List.mem_singleton, List.not_mem_nil,
            or_false, false_or, List.append_nil, List.nil_append]
          tauto
  | work =>
    cases hr : s.rendering with
    | some p =>
      by_cases hrem : p.remaining ≤ 1
      · simp only [applyAction, hr, hrem, if_true, commitPass, SchedState.liveUnits,
          Pass.units, Action.submitted, List.flatten_append, List.flatten_cons,
          List.flatten_nil, List.mem_append, List.mem_dedup, List.not_mem_nil,
          or_false, List.append_nil]
        tauto
      · simp only [applyAction, hr, hrem, if_false, SchedState.liveUnits, Pass.units,
          Action.submitted, List.not_mem_nil, or_false]
    | none =>
      cases hp : s.pending with
      | nil =>
        simp only [applyAction, hr, hp, SchedState.liveUnits, Action.submitted,
          List.not_mem_nil, or_false]
      | cons u0 rest0 =>
        simp only [applyAction, hr, hp, SchedState.liveUnits, Pass.units,
          Action.submitted, List.mem_append, List.not_mem_nil, or_false,
          List.nil_append]
        rw [mem_map_unit_split (u0 :: rest0) (bestRank (u0 :: rest0)) u]
        tauto
  | flushSync w =>
    cases hr : s.rendering with
    | none =>
      have hs := mem_map_unit_split s.pending 0 u
      simp only [applyAction, hr, commitPass, SchedState.liveUnits, Pass.units,
        Action.submitted, List.map_append, List.mem_append, List.flatten_append,
        List.flatten_cons, List.flatten_nil, List.mem_dedup, List.map_cons,
        List.map_nil, List.mem_cons, List.mem_singleton, List.not_mem_nil, or_false,
        false_or, List.append_nil, List.nil_append]
      tauto
    | some p =>
      have hs := mem_map_unit_split (p.updates ++ s.pending) 0 u
      simp only [List.map_append, List.mem_append] at hs
      simp only [applyAction, hr, commitPass, SchedState.liveUnits, Pass.units,
        Action.submitted, List.map_append, List.mem_append, List.flatten_append,
        List.flatten_cons, List.flatten_nil, List.mem_dedup, List.map_cons,
        List.map_nil, List.mem_cons, List.mem_singleton, List.not_mem_nil, or_false,
        false_or, List.append_nil, List.nil_append]
      tauto
  | flushPassive =>
    cases hq : s.passiveQueue with
    | nil =>
      simp only [applyAction, hq, Action.submitted, List.not_mem_nil, or_false]
    | cons k qs =>
      simp only [applyAction, hq, SchedState.liveUnits, Action.submitted,
        List.not_mem_nil, or_false]
  | flushOffscreen =>
    rcases hoff : s.offscreen <;> rcases hr : s.rendering with _ | p <;>
      simp [applyAction, hoff, hr, commitPass, SchedState.liveUnits, Pass.units,
        Action.submitted, List.flatten_append]
  | workSuspend un re => simp [Action.isPlain] at ha
  | resolve re => simp [Action.isPlain] at ha
  | workThrow b e => simp [Action.isPlain] at ha

end Sched

namespace Sched

lemma submittedUnits_cons (a : Action) (as : List Action) :
    submittedUnits (a :: as) = a.submitted ++ submittedUnits as := by
  simp [submittedUnits]

lemma liveUnits_foldl (cfg : Config) (acts : List Action) :
    ∀ s : SchedState, (∀ a ∈ acts, a.isPlain = true) → ∀ u : Nat,
      u ∈ (acts.foldl (fun t a => applyAction cfg a t) s).liveUnits ↔
        u ∈ s.liveUnits ∨ u ∈ submittedUnits acts := by
  induction acts with
  | nil =>
    intro s h u
    simp [submittedUnits]
  | cons a as ih =>
    intro s h u
    rw [List.foldl_cons,
      ih (applyAction cfg a s) (fun b hb => h b (List.mem_cons_of_mem a hb)) u,
      liveUnits_applyAction cfg a s (h a (List.mem_cons_self a as)) u,
      submittedUnits_cons]
    simp only [List.mem_append]
    tauto

lemma liveUnits_run_quiescent (cfg : Config) (acts : List Action)
    (hplain : ∀ a ∈ acts, a.isPlain = true)
    (hp : (run cfg acts).pending = []) (hr : (run cfg acts).rendering = none)
    (u : Nat) :
    u ∈ (run cfg acts).log.flatten ↔ u ∈ submittedUnits acts := by
  have h := liveUnits_foldl cfg acts SchedState.init hplain u
  rw [show acts.foldl (fun t a => applyAction cfg a t) SchedState.init
      = run cfg acts from rfl] at h
  simp only [SchedState.liveUnits, SchedState.init, hp, hr, List.map_nil,
    List.nil_append, List.flatten_nil, List.not_mem_nil, false_or,
    List.append_nil] at h
  exact h

lemma evAt_append (k : Nat) (a b : List Event) :
    evAt k (a ++ b) = evAt k a ++ evAt k b :=
  List.filter_append _ _

lemma passiveOnly_append (k : Nat) (l1 l2 : List Event)
    (h1 : passiveOnly k l1) (h2 : passiveOnly k l2) :
    passiveOnly k (l1 ++ l2) := by
  intro e he
  rcases List.mem_append.mp he with h | h
  · exact h1 e h
  · exact h2 e h

lemma eventsWF_commitPass (us : List Nat) (hd : Bool) (s : SchedState)
    (hwf : eventsWF s) : eventsWF (commitPass us hd s) := by
  obtain ⟨h1, h2, h3⟩ := hwf
  have hlen : (commitPass us hd s).log.length = s.log.length + 1 := by
    simp [commitPass]
  have hev : (commitPass us hd s).events
      = s.events ++ (us.map (fun _ => Event.layout s.log.length)
        ++ [Event.commitRoot s.log.length, Event.passiveScheduled s.log.length]) := by
    simp [commitPass]
  have hq : (commitPass us hd s).passiveQueue = s.passiveQueue ++ [s.log.length] := by
    simp [commitPass]
  have hnil : evAt s.log.length s.events = [] := by
    rw [evAt, List.filter_eq_nil_iff]
    intro e he
    simp [Nat.ne_of_lt (h1 e he)]
  refine ⟨?_, ?_, ?_⟩
  · intro e he
    rw [hev] at he
    rw [hlen]
    rcases List.mem_append.mp he with h | h
    · exact Nat.lt_succ_of_lt (h1 e h)
    · rcases List.mem_append.mp h with h' | h'
      · obtain ⟨x, _, rfl⟩ := List.mem_map.mp h'
        simp [Event.idx]
      · simp only [List.mem_cons, List.not_mem_nil, or_false] at h'
        rcases h' with rfl | rfl <;> simp [Event.idx]
  · intro k hk
    rw [hq] at hk
    rw [hlen]
    rcases List.mem_append.mp hk with h | h
    · exact Nat.lt_succ_of_lt (h2 k h)
    · simp only [List.mem_singleton] at h
      subst h
      exact Nat.lt_succ_self _
  · intro k hk
    rw [hlen] at hk
    rw [hev]
    by_cases hks : k < s.log.length
    · obtain ⟨m, rest, hsh, hpo⟩ := h3 k hks
      refine ⟨m, rest, ?_, hpo⟩
      have hz : evAt k (us.map (fun _ => Event.layout s.log.length)
          ++ [Event.commitRoot s.log.length, Event.passiveScheduled s.log.length])
          = [] := by
        rw [evAt, List.filter_eq_nil_iff]
        intro e he
        rcases List.mem_append.mp he with h' | h'
        · obtain ⟨x, _, rfl⟩ := List.mem_map.mp h'
          simp [Event.idx, hks.ne']
        · simp only [List.mem_cons, List.not_mem_nil, or_false] at h'
          rcases h' with rfl | rfl <;> simp [Event.idx, hks.ne']
      rw [evAt_append, hz, List.append_nil, hsh]
    · have hkeq : k = s.log.length := by omega
      subst hkeq
      refine ⟨us.length, [Event.passiveScheduled s.log.length], ?_, ?_⟩
      · have hB : evAt s.log.length (us.map (fun _ => Event.layout s.log.length)
            ++ [Event.commitRoot s.log.length,
              Event.passiveScheduled s.log.length])
            = List.replicate us.length (Event.layout s.log.length)
              ++ Event.commitRoot s.log.length
                :: [Event.passiveScheduled s.log.length] := by
          rw [evAt, List.filter_append]
          congr 1
          · rw [List.filter_eq_self.mpr, List.map_const']
            intro e he
            obtain ⟨x, _, rfl⟩ := List.mem_map.mp he
            simp [Event.idx]
          · simp [Event.idx]
        rw [evAt_append, hnil, List.nil_append, hB]
      · intro e he
        simp only [List.mem_singleton] at he
        subst he
        exact Or.inl rfl

lemma eventsWF_applyAction (cfg : Config) (a : Action) (s : SchedState)
    (hwf : eventsWF s) : eventsWF (applyAction cfg a s) := by
  cases a with
  | submit v =>
    cases hr : s.rendering with
    | none =>
      simp only [applyAction, hr]
      exact hwf
    | some p =>
      by_cases hc : v.priority.rank < p.priority.rank
      · simp only [applyAction, hr]
        rw [if_pos hc]
        exact hwf
      · simp only [applyAction, hr]
        rw [if_neg hc]
        exact hwf
  | work =>
    cases hr : s.rendering with
    | some p =>
      by_cases hrem : p.remaining ≤ 1
      · simp only [applyAction, hr]
        rw [if_pos hrem]
        exact eventsWF_commitPass _ _ _ hwf
      · simp only [applyAction, hr]
        rw [if_neg hrem]
        exact hwf
    | none =>
      cases hp : s.pending with
      | nil =>
        simp only [applyAction, hr, hp]
        exact hwf
      | cons u0 r0 =>
        simp only [applyAction, hr, hp]
        exact hwf
  | flushSync w =>
    simp only [applyAction]
    exact eventsWF_commitPass _ _ _ hwf
  | flushPassive =>
    cases hq' : s.passiveQueue with
    | nil =>
      simp only [applyAction, hq']
      exact hwf
    | cons k qs =>
      obtain ⟨h1, h2, h3⟩ := hwf
      have hk : k < s.log.length := h2 k (hq' ▸ List.mem_cons_self k qs)
      simp only [applyAction, hq']
      refine ⟨?_, ?_, ?_⟩
      · intro e he
        rcases List.mem_append.mp he with h | h
        · exact h1 e h
        · simp only [List.mem_singleton] at h
          subst h
          simpa [Event.idx] using hk
      · intro j hj
        exact h2 j (hq' ▸ List.mem_cons_of_mem k hj)
      · intro j hj
        obtain ⟨m, rest, hsh, hpo⟩ := h3 j hj
        by_cases hjk : j = k
        · subst hjk
          refine ⟨m, rest ++ [Event.passiveRun j], ?_, ?_⟩
          · have hone : evAt j [Event.passiveRun j] = [Event.passiveRun j] := by
              simp [evAt, Event.idx]
            rw [evAt_append, hsh, hone, List.append_assoc, List.cons_append]
          · refine passiveOnly_append _ _ _ hpo ?_
            intro e he
            simp only [List.mem_singleton] at he
            subst he
            exact Or.inr rfl
        · refine ⟨m, rest, ?_, hpo⟩
          have hz : evAt j [Event.passiveRun k] = [] := by
            simp [evAt, Event.idx, Ne.symm hjk]
          rw [evAt_append, hsh, hz, List.append_nil]
  | flushOffscreen =>
    by_cases hoff : (s.offscreen && s.rendering.isNone) = true
    · simp only [applyAction]
      rw [if_pos hoff]
      exact eventsWF_commitPass _ _ _ hwf
    · simp only [applyAction]
      rw [if_neg hoff]
      exact hwf
  | workSuspend un re =>
    cases hr : s.rendering with
    | some p =>
      simp only [applyAction, hr]
      exact eventsWF_commitPass _ _ _ hwf
    | none =>
      simp only [applyAction, hr]
      exact hwf
  | resolve re =>
    simp only [applyAction]
    exact hwf
  | workThrow b e =>
    cases hr : s.rendering with
    | some p =>
      simp only [applyAction, hr]
      exact eventsWF_commitPass _ _ _ hwf
    | none =>
      simp only [applyAction, hr]
      exact hwf

lemma eventsWF_run (cfg : Config) (acts : List Action) :
    eventsWF (run cfg acts) := by
  have aux : ∀ (l : List Action) (s : SchedState), eventsWF s →
      eventsWF (l.foldl (fun t a => applyAction cfg a t) s) := by
    intro l
    induction l with
    | nil => intro s h; exact h
    | cons a as ih => intro s h; exact ih _ (eventsWF_applyAction cfg a s h)
  exact aux acts SchedState.init
    ⟨fun e he => absurd he (List.not_mem_nil e),
      fun k hk => absurd hk (List.not_mem_nil k),
      fun k hk => absurd hk (Nat.not_lt_zero k)⟩

lemma count_commitRoot_of_shape (k : Nat) (es : List Event)
    (h : commitShape k es) :
    List.count (Event.commitRoot k) es = 1 := by
  obtain ⟨m, rest, hsh, hpo⟩ := h
  have h0 : List.count (Event.commitRoot k) (evAt k es)
      = List.count (Event.commitRoot k) es :=
    List.count_filter (by simp [Event.idx])
  have hrep : List.count (Event.commitRoot k)
      (List.replicate m (Event.layout k)) = 0 := by
    rw [List.count_replicate]
    simp
  have hrest : List.count (Event.commitRoot k) rest = 0 := by
    rw [List.count_eq_zero]
    intro hmem
    rcases hpo _ hmem with h' | h' <;> simp at h'
  rw [← h0, hsh, List.count_append, hrep, List.count_cons_self, hrest]

end Sched

namespace Sched

lemma filter_beq_of_filter_bne (l : List Wait) (r : Nat) :
    (l.filter (fun w => w.resource != r)).filter (fun w => w.resource == r) = [] := by
  induction l with
  | nil => rfl
  | cons w l ih =>
    by_cases h : w.resource = r <;> simp [h, ih]

lemma filter_bne_idem (l : List Wait) (r : Nat) :
    (l.filter (fun w => w.resource != r)).filter (fun w => w.resource != r)
      = l.filter (fun w => w.resource != r) := by
  induction l with
  | nil => rfl
  | cons w l ih =>
    by_cases h : w.resource = r <;> simp [h, ih]

/-- C1: in a plain run of interleaved updates (submissions, work-loop
steps, synchronous flushes, passive and offscreen processing) that ends
quiescent, a work unit appears in some commit's Updater Record exactly
when its own state change was submitted during the run, and every entry
of every Updater Record traces back to a submitted state change of that
very unit — never an ancestor or an uninvolved sibling, which submit
nothing. -/
theorem no_lost_updaters (cfg : Config) (acts : List Action)
    (hplain : ∀ a ∈ acts, a.isPlain = true)
    (hq : quiescent (run cfg acts)) (u : Nat) :
    ((∃ rec ∈ (run cfg acts).log, u ∈ rec) ↔ u ∈ submittedUnits acts) ∧
      (∀ rec ∈ (run cfg acts).log, ∀ w ∈ rec, w ∈ submittedUnits acts) := by
  obtain ⟨hp, hr⟩ := hq
  constructor
  · rw [← List.mem_flatten]
    exact liveUnits_run_quiescent cfg acts hplain hp hr u
  · intro rec hrec w hw
    exact (liveUnits_run_quiescent cfg acts hplain hp hr w).mp
      (List.mem_flatten.mpr ⟨rec, hrec, hw⟩)

theorem no_lost_updaters_witness :
    ((∃ rec ∈ (run ⟨1⟩ [Action.submit ⟨5, Priority.normal, false⟩, Action.work,
          Action.work]).log, 5 ∈ rec) ↔
        5 ∈ submittedUnits [Action.submit ⟨5, Priority.normal, false⟩, Action.work,
          Action.work]) ∧
      (∀ rec ∈ (run ⟨1⟩ [Action.submit ⟨5, Priority.normal, false⟩, Action.work,
          Action.work]).log, ∀ w ∈ rec, w ∈ submittedUnits
            [Action.submit ⟨5, Priority.normal, false⟩, Action.work, Action.work]) :=
  no_lost_updaters ⟨1⟩
    [Action.submit ⟨5, Priority.normal, false⟩, Action.work, Action.work]
    (by decide) ⟨by decide, by decide⟩ 5

/-- C2: submitting a Normal-priority update and then, while its pass is
rendering, an Immediate-priority update to the same root, yields exactly
two commits, the Immediate one first and the restarted Normal one second,
each reporting only its own updater; at the interruption the in-progress
partial pass has been discarded (its request is back in the queue, to be
restarted from scratch).  In general a synchronous Immediate request
appends its own commit immediately, while every Normal/Low/Idle request
pending at submission time is still pending afterwards, so its commit can
only come later in the log. -/
theorem immediate_priority_first (L H : Nat) (cfg : Config) (t : SchedState)
    (u : Nat) (v : Update) (hv : v ∈ t.pending)
    (hprio : v.priority ≠ Priority.immediate) :
    (run ⟨2⟩ [.submit ⟨L, .normal, false⟩, .work, .flushSync H,
        .work, .work, .work]).log = [[H], [L]] ∧
    (run ⟨2⟩ [.submit ⟨L, .normal, false⟩, .work, .flushSync H]).rendering = none ∧
    (run ⟨2⟩ [.submit ⟨L, .normal, false⟩, .work, .flushSync H]).pending
      = [⟨L, .normal, false⟩] ∧
    (∃ rec, (applyAction cfg (.flushSync u) t).log = t.log ++ [rec] ∧ u ∈ rec) ∧
    v ∈ (applyAction cfg (.flushSync u) t).pending := by
  refine ⟨?_, ?_, ?_, ?_, ?_⟩
  · simp [run, applyAction, commitPass, bestRank, SchedState.init, Pass.units,
      Priority.rank, List.foldl_cons, List.foldl_nil]
  · simp [run, applyAction, commitPass, bestRank, SchedState.init, Pass.units,
      Priority.rank, List.foldl_cons, List.foldl_nil]
  · simp [run, applyAction, commitPass, bestRank, SchedState.init, Pass.units,
      Priority.rank, List.foldl_cons, List.foldl_nil]
  · cases h : t.rendering <;>
      exact ⟨_, rfl, by simp [List.mem_dedup]⟩
  · have hrank : (v.priority.rank != 0) = true := by
      simp [rank_ne_zero v.priority hprio]
    cases h : t.rendering with
    | none =>
      simp only [applyAction, commitPass, h]
      exact List.mem_filter.mpr ⟨hv, hrank⟩
    | some p =>
      simp only [applyAction, commitPass, h]
      exact List.mem_filter.mpr ⟨List.mem_append_right _ hv, hrank⟩

theorem immediate_priority_first_witness :
    (run ⟨2⟩ [.submit ⟨1, .normal, false⟩, .work, .flushSync 2,
        .work, .work, .work]).log = [[2], [1]] ∧
    (run ⟨2⟩ [.submit ⟨1, .normal, false⟩, .work, .flushSync 2]).rendering = none ∧
    (run ⟨2⟩ [.submit ⟨1, .normal, false⟩, .work, .flushSync 2]).pending
      = [⟨1, .normal, false⟩] ∧
    (∃ rec, (applyAction ⟨2⟩ (.flushSync 9)
        ⟨[⟨3, Priority.normal, false⟩], none, [], [], false, [], [], [], 0⟩).log
      = (⟨[⟨3, Priority.normal, false⟩], none, [], [], false, [], [], [], 0⟩
          : SchedState).log ++ [rec] ∧ 9 ∈ rec) ∧
    (⟨3, Priority.normal, false⟩ : Update) ∈ (applyAction ⟨2⟩ (.flushSync 9)
        ⟨[⟨3, Priority.normal, false⟩], none, [], [], false, [], [], [], 0⟩).pending :=
  immediate_priority_first 1 2 ⟨2⟩
    ⟨[⟨3, Priority.normal, false⟩], none, [], [], false, [], [], [], 0⟩ 9
    ⟨3, Priority.normal, false⟩ (by decide) (by decide)

/-- C3: for every run and every committed pass `k`, the observable event
trace of commit `k` consists of its layout-phase effects, then the single
`onCommitRoot` notification, then only passive-phase events (their
scheduling and later execution); in particular `onCommitRoot` fires
exactly once per completed pass, after all layout effects of that commit
and before any passive effect of that commit is scheduled or executed. -/
theorem commit_notify_order (cfg : Config) (acts : List Action) (k : Nat)
    (hk : k < (run cfg acts).log.length) :
    commitShape k (run cfg acts).events ∧
      List.count (Event.commitRoot k) (run cfg acts).events = 1 := by
  have hsh := (eventsWF_run cfg acts).2.2 k hk
  exact ⟨hsh, count_commitRoot_of_shape k _ hsh⟩

theorem commit_notify_order_witness :
    commitShape 0 (run ⟨1⟩ [Action.submit ⟨6, Priority.normal, false⟩, Action.work,
        Action.work]).events ∧
      List.count (Event.commitRoot 0) (run ⟨1⟩ [Action.submit
        ⟨6, Priority.normal, false⟩, Action.work, Action.work]).events = 1 :=
  commit_notify_order ⟨1⟩
    [Action.submit ⟨6, Priority.normal, false⟩, Action.work, Action.work] 0
    (by decide)

/-- C4: when the rendering pass for work unit `p` throws and boundary `b`
is the nearest ancestor error boundary, exactly one failed subtree render
is discarded, the boundary's error-handling hook is invoked exactly once
with the captured failure, and exactly one recovery commit follows whose
Updater Record contains the boundary itself as the sole updater. -/
theorem error_boundary_recovery (p b : Nat) (e : String) (prio : Priority) :
    (run ⟨1⟩ [.submit ⟨p, prio, false⟩, .work, .workThrow b e, .work, .work]).log
      = [[p], [b]] ∧
    (run ⟨1⟩ [.submit ⟨p, prio, false⟩, .work, .workThrow b e, .work,
        .work]).hookCalls = [(b, e)] ∧
    (run ⟨1⟩ [.submit ⟨p, prio, false⟩, .work, .workThrow b e, .work,
        .work]).discarded = 1 := by
  cases prio <;>
    simp [run, applyAction, commitPass, bestRank, SchedState.init, Pass.units,
      Priority.rank, List.foldl_cons, List.foldl_nil]

set_option maxHeartbeats 1600000 in
/-- C5: after the pass for work unit `su` suspends on resource `r` and
commits fallback content (one commit, recording `su`), resolving `r`
re-enqueues exactly one fresh request for the same unit at its original
priority, producing exactly one follow-up commit with real content;
resolving the same resource a second time re-enqueues nothing and
produces no additional commit, and in general resolving a resource twice
equals resolving it once. -/
theorem suspense_resolution_idempotent (su r : Nat) (prio : Priority)
    (cfg : Config) (s : SchedState) :
    (run ⟨1⟩ [.submit ⟨su, prio, false⟩, .work, .workSuspend su r]).log
      = [[su]] ∧
    (applyAction ⟨1⟩ (.resolve r)
        (run ⟨1⟩ [.submit ⟨su, prio, false⟩, .work, .workSuspend su r])).pending
      = [⟨su, prio, false⟩] ∧
    (run ⟨1⟩ [.submit ⟨su, prio, false⟩, .work, .workSuspend su r,
        .resolve r, .work, .work]).log = [[su], [su]] ∧
    (run ⟨1⟩ [.submit ⟨su, prio, false⟩, .work, .workSuspend su r,
        .resolve r, .work, .work, .resolve r, .work, .work]).log = [[su], [su]] ∧
    applyAction cfg (.resolve r) (applyAction cfg (.resolve r) s)
      = applyAction cfg (.resolve r) s := by
  refine ⟨?_, ?_, ?_, ?_, ?_⟩
  · cases prio <;>
      simp [run, applyAction, commitPass, bestRank, SchedState.init, Pass.units,
        Priority.rank, List.foldl_cons, List.foldl_nil]
  · cases prio <;>
      simp [run, applyAction, commitPass, bestRank, SchedState.init, Pass.units,
        Priority.rank, List.foldl_cons, List.foldl_nil]
  · cases prio <;>
      simp [run, applyAction, commitPass, bestRank, SchedState.init, Pass.units,
        Priority.rank, List.foldl_cons, List.foldl_nil]
  · cases prio <;>
      simp [run, applyAction, commitPass, bestRank, SchedState.init, Pass.units,
        Priority.rank, List.foldl_cons, List.foldl_nil]
  · simp only [applyAction]
    simp [SchedState.mk.injEq, filter_beq_of_filter_bne, filter_bne_idem]

/-- C10: a commit whose Updater Record is empty does occur: after the
commit of a hidden-subtree update, the deferred offscreen follow-up pass
consumes no update request and commits an empty Updater Record, so a
consumer of `onCommitRoot` cannot assume every commit's record is
non-empty. -/
theorem empty_updater_record_possible :
    (run ⟨1⟩ [.submit ⟨7, .normal, true⟩, .work, .work, .flushOffscreen]).log
      = [[7], []] ∧
    [] ∈ (run ⟨1⟩ [.submit ⟨7, .normal, true⟩, .work, .work,
        .flushOffscreen]).log := by
  decide

end Sched

namespace InteractionTracking

theorem track_zone_symmetry_witness :
    track true "n" 0
        (fun _ => ((Result.thrown "boom" : Result Unit), (none : ZoneState)))
        (none : ZoneState) = (Result.thrown "boom", none) :=
  (track_zone_symmetry Unit
    (fun _ => ((Result.thrown "boom" : Result Unit), (none : ZoneState)))
    "n" 0 none).2 "boom" rfl

end InteractionTracking
